import Mathlib

/-!
Shallow embedding of the streaming technical-analysis indicator library
(adaptive temporal bucketing, sliding-time-window ingestion, time-weighted
exponential smoothing, RSI oscillator) and proofs about its behaviour.

Modelling conventions:
* Timestamps (`chrono::DateTime<Utc>`) are embedded as `ℤ`, counting whole
  seconds since the epoch.  All arithmetic the embedded code performs on
  timestamps (`timestamp()`, `num_seconds()`, second/minute bucket division,
  the 12,240-second daily gap) is whole-second arithmetic, so this is exact
  at the granularity the code computes with.
* Rust `i64` division truncates towards zero; it is embedded as `Int.tdiv`.
* `f64` values are embedded as real numbers (`ℝ`) for the smoother and the
  oscillator, whose claims are about the exact arithmetic the formulas
  denote, and as exact rationals (`ℚ`) for the sliding-window indicators,
  whose claims only constrain timestamps.  For the drawdown/drawup claim,
  which is explicitly about NaN and Infinity, division and the max-update
  comparison are embedded on a type `FVal` carrying the IEEE special values.
* Window contents (`VecDeque<(DateTime<Utc>, f64)>`) are lists, front first.
-/

namespace TaRs

/-! ## AdaptiveTimeDetector (src/indicators/adaptive.rs) -/

/-- Frequency mode of the detector (`DetectedFrequency` in adaptive.rs):
`unknown` is the deprecated learning remnant, `dailyOHLC` the 3.4-hour-gap
daily mode, `intraday w` the bucketed mode with bucket width `w` seconds. -/
inductive DetectedFrequency
  | unknown
  | dailyOHLC
  | intraday (bucketSeconds : ℤ)
  deriving DecidableEq, Repr

/-- State of `AdaptiveTimeDetector`: the fixed mode, the last integer bucket
key (`last_minute_bucket: i64`), and the last daily slot start
(`last_timestamp: Option<DateTime<Utc>>`). -/
structure AdaptiveTimeDetector where
  frequency : DetectedFrequency
  lastMinuteBucket : ℤ
  lastTimestamp : Option ℤ
  deriving DecidableEq, Repr

/-- The `i64::MIN` sentinel used to initialise `last_minute_bucket`. -/
def i64MIN : ℤ := -(2 ^ 63)

/-- The 3.4-hour minimum gap of daily mode:
`chrono::Duration::seconds(3 * 3600 + 24 * 60)` = 12,240 seconds. -/
def minGap : ℤ := 3 * 3600 + 24 * 60

/-- `AdaptiveTimeDetector::new(duration)`: mode selection from the
indicator duration (in whole seconds): second bucketing below 5 minutes,
minute bucketing below 1 day, daily gap enforcement otherwise. -/
def detectorNew (durationSecs : ℕ) : AdaptiveTimeDetector :=
  let frequency :=
    if durationSecs < 5 * 60 then DetectedFrequency.intraday 1
    else if durationSecs < 86400 then DetectedFrequency.intraday 60
    else DetectedFrequency.dailyOHLC
  { frequency := frequency, lastMinuteBucket := i64MIN, lastTimestamp := none }

/-- `AdaptiveTimeDetector::should_replace(timestamp)`: returns the decision
together with the updated detector state. -/
def shouldReplace (s : AdaptiveTimeDetector) (timestamp : ℤ) :
    Bool × AdaptiveTimeDetector :=
  match s.frequency with
  | DetectedFrequency.intraday bucketSeconds =>
      let currentBucket := Int.tdiv timestamp bucketSeconds
      let rep := currentBucket = s.lastMinuteBucket
      (rep, { s with lastMinuteBucket := currentBucket })
  | DetectedFrequency.dailyOHLC =>
      match s.lastTimestamp with
      | some lastTs =>
          let timeDiff := timestamp - lastTs
          if 0 < timeDiff ∧ timeDiff < minGap then
            (true, s)
          else
            (false, { s with lastTimestamp := some timestamp })
      | none => (false, { s with lastTimestamp := some timestamp })
  | DetectedFrequency.unknown =>
      (false, { s with lastTimestamp := some timestamp })

/-- `AdaptiveTimeDetector::reset()`: clears the slot state, keeps the mode. -/
def detectorReset (s : AdaptiveTimeDetector) : AdaptiveTimeDetector :=
  { s with lastMinuteBucket := i64MIN, lastTimestamp := none }

/-! ## Sliding windows

The window-based indicators hold `VecDeque<(DateTime<Utc>, f64)>` windows;
their update protocols differ only in the eviction boundary (`<=` versus
`<`) and in whether eviction runs unconditionally before the
replace-or-append step or only on the append path.  Values are embedded as
`ℚ`; the claims on these definitions constrain only the retained
timestamps. -/

/-- Eviction loop with inclusive boundary, as in
`SimpleMovingAverage::remove_old_data`, `StandardDeviation::remove_old_data`,
`Maximum::remove_old_data`, `BollingerBands::remove_old_data`:
pop entries from the front while `time <= current_time - duration`. -/
def evictIncl (durationSecs : ℤ) (currentTime : ℤ) (w : List (ℤ × ℚ)) :
    List (ℤ × ℚ) :=
  w.dropWhile (fun e => e.1 ≤ currentTime - durationSecs)

/-- Eviction loop with strict boundary, as in `MaxDrawdown::remove_old_data`,
`MaxDrawup::remove_old_data`, `Minimum::remove_old`:
pop entries from the front while `time < current_time - duration`. -/
def evictStrict (durationSecs : ℤ) (currentTime : ℤ) (w : List (ℤ × ℚ)) :
    List (ℤ × ℚ) :=
  w.dropWhile (fun e => e.1 < currentTime - durationSecs)

/-- Window state of a window-based indicator: the detector plus the window. -/
structure WindowState where
  det : AdaptiveTimeDetector
  window : List (ℤ × ℚ)
  deriving DecidableEq, Repr

/-- Window maintenance of `SimpleMovingAverage::next` (also, verbatim in
window behaviour, `StandardDeviation::next` and, with `sum`/`sum_sq` kept
alongside, their accumulators): ask the detector, ALWAYS remove old data
first, then pop the back when replacing a non-empty window, then append. -/
def smaWindowNext (durationSecs : ℤ) (s : WindowState) (timestamp : ℤ)
    (value : ℚ) : WindowState :=
  let (rep, det') := shouldReplace s.det timestamp
  let w1 := evictIncl durationSecs timestamp s.window
  let w2 := if rep ∧ w1 ≠ [] then w1.dropLast else w1
  { det := det', window := w2 ++ [(timestamp, value)] }

/-- Window maintenance of `Maximum::next`: identical protocol to the SMA,
inclusive eviction boundary, eviction before the replace decision. -/
def maximumWindowNext (durationSecs : ℤ) (s : WindowState) (timestamp : ℤ)
    (value : ℚ) : WindowState :=
  let (rep, det') := shouldReplace s.det timestamp
  let w1 := evictIncl durationSecs timestamp s.window
  let w2 := if rep ∧ w1 ≠ [] then w1.dropLast else w1
  { det := det', window := w2 ++ [(timestamp, value)] }

/-- Window maintenance of `MaxDrawdown::next` and `MaxDrawup::next`:
eviction always runs first, with the strict boundary. -/
def drawWindowNext (durationSecs : ℤ) (s : WindowState) (timestamp : ℤ)
    (value : ℚ) : WindowState :=
  let (rep, det') := shouldReplace s.det timestamp
  let w1 := evictStrict durationSecs timestamp s.window
  let w2 := if rep ∧ w1 ≠ [] then w1.dropLast else w1
  { det := det', window := w2 ++ [(timestamp, value)] }

/-- Window maintenance of `Minimum::next` as written in minimum.rs: when the
detector says replace and the window is non-empty, the back entry is popped
and eviction is NOT run; old data is removed only on the append path.
(minimum.rs also constructs its detector with `AdaptiveTimeDetector::new()`,
with the required duration argument missing; the detector is modelled as
`new(duration)` as in every other indicator, the only form that type-checks
against adaptive.rs.) -/
def minimumWindowNext (durationSecs : ℤ) (s : WindowState) (timestamp : ℤ)
    (value : ℚ) : WindowState :=
  let (rep, det') := shouldReplace s.det timestamp
  let w2 :=
    if rep ∧ s.window ≠ [] then s.window.dropLast
    else evictStrict durationSecs timestamp s.window
  { det := det', window := w2 ++ [(timestamp, value)] }

/-- Window maintenance of `BollingerBands::next` as written in
bollinger_bands.rs: same deferred-eviction shape as minimum.rs but with the
inclusive eviction boundary (and the same missing-argument
`AdaptiveTimeDetector::new()` call, modelled as `new(duration)`). -/
def bollingerWindowNext (durationSecs : ℤ) (s : WindowState) (timestamp : ℤ)
    (value : ℚ) : WindowState :=
  let (rep, det') := shouldReplace s.det timestamp
  let w2 :=
    if rep ∧ s.window ≠ [] then s.window.dropLast
    else evictIncl durationSecs timestamp s.window
  { det := det', window := w2 ++ [(timestamp, value)] }

/-- Modelled from the spec: the canonical update protocol of §4.2 with
Minimum's strict boundary — evict stale entries first, then apply the
replace-or-append decision.  Used to compare minimum.rs against the
spec's stated policy. -/
def minimumWindowNextSpec (durationSecs : ℤ) (s : WindowState)
    (timestamp : ℤ) (value : ℚ) : WindowState :=
  let (rep, det') := shouldReplace s.det timestamp
  let w1 := evictStrict durationSecs timestamp s.window
  let w2 := if rep ∧ w1 ≠ [] then w1.dropLast else w1
  { det := det', window := w2 ++ [(timestamp, value)] }

/-- Replay a list of `(timestamp, value)` samples through a window update
function. -/
def windowRun (step : WindowState → ℤ → ℚ → WindowState) :
    WindowState → List (ℤ × ℚ) → WindowState
  | s, [] => s
  | s, (t, v) :: rest => windowRun step (step s t v) rest

/-- Fresh window state for an indicator of the given duration. -/
def windowNew (durationSecs : ℕ) : WindowState :=
  { det := detectorNew durationSecs, window := [] }

/-! ## MaxDrawdown / MaxDrawup reducers (max_drawdown.rs, max_drawup.rs)

The ratio `(peak - value) / peak` (resp. `(value - trough) / trough`) is an
`f64` division with no zero guard, so the claim about it is a claim about
IEEE special values.  Finite doubles are embedded as exact rationals and the
division and the `>` max-update comparison are given their IEEE behaviour on
`NaN` and the infinities (zero denominators here are the `+0.0` produced by
a caller-supplied `0.0`). -/

/-- Result type of the drawdown/drawup ratio computation: a finite value,
`NaN`, or a signed infinity. -/
inductive FVal
  | nan
  | inf
  | ninf
  | fin (q : ℚ)
  deriving DecidableEq, Repr

/-- IEEE division `a / b` of finite values (`b = 0` is `+0.0`):
`0/0` is `NaN`, a nonzero numerator over `+0.0` is a signed infinity,
otherwise the exact quotient. -/
def ratio (a b : ℚ) : FVal :=
  if b = 0 then
    if 0 < a then FVal.inf else if a < 0 then FVal.ninf else FVal.nan
  else FVal.fin (a / b)

/-- The IEEE `>` comparison on `FVal`: any comparison against `NaN` is
false. -/
def FVal.isGt : FVal → FVal → Bool
  | FVal.nan, _ => false
  | _, FVal.nan => false
  | FVal.inf, FVal.inf => false
  | FVal.inf, _ => true
  | FVal.ninf, _ => false
  | FVal.fin _, FVal.inf => false
  | FVal.fin _, FVal.ninf => true
  | FVal.fin a, FVal.fin b => decide (b < a)

/-- Multiplication by the positive constant `100.0`: fixes `NaN` and the
infinities, scales finite values exactly. -/
def scale100 : FVal → FVal
  | FVal.nan => FVal.nan
  | FVal.inf => FVal.inf
  | FVal.ninf => FVal.ninf
  | FVal.fin q => FVal.fin (100 * q)

/-- `f64::MAX`, the initial running trough of `calculate_max_drawup`, as an
exact rational: `(2 - 2^-52) * 2^1023 = 2^1024 - 2^971`, written as a
decimal numeral so that it evaluates by kernel reduction. -/
def f64MAXq : ℚ := 179769313486231570814527423731704356798070567525844996598917476803157260780028538760589558632766878171540458953514382464234321326889464182768467546703537516986049910576551282076245490090389328944075868508455133942304583236903222948165808559332123348274797826204144723168738177180919299881250404026184124858368

/-- `f64::MIN`, the initial running peak of `calculate_max_drawdown`. -/
def f64MINq : ℚ := -f64MAXq

/-- One iteration of the `calculate_max_drawdown` loop: raise the running
peak to the current value if it exceeds it, form
`drawdown = (peak - value) / peak`, and keep the larger of it and the
accumulated maximum (a `NaN` ratio fails the comparison). -/
def ddStep (pm : ℚ × FVal) (value : ℚ) : ℚ × FVal :=
  let peak := if pm.1 < value then value else pm.1
  let drawdown := ratio (peak - value) peak
  (peak, if FVal.isGt drawdown pm.2 then drawdown else pm.2)

/-- One iteration of the `calculate_max_drawup` loop: lower the running
trough, form `drawup = (value - trough) / trough`, keep the larger. -/
def duStep (tm : ℚ × FVal) (value : ℚ) : ℚ × FVal :=
  let trough := if value < tm.1 then value else tm.1
  let drawup := ratio (value - trough) trough
  (trough, if FVal.isGt drawup tm.2 then drawup else tm.2)

/-- `MaxDrawdown::calculate_max_drawdown`: fold the window's values with
`ddStep` from `(f64::MIN, 0.0)` and scale the result by `100.0`. -/
def calcMaxDrawdown (vals : List ℚ) : FVal :=
  scale100 (vals.foldl ddStep (f64MINq, FVal.fin 0)).2

/-- `MaxDrawup::calculate_max_drawup`: fold the window's values with
`duStep` from `(f64::MAX, 0.0)` and scale the result by `100.0`. -/
def calcMaxDrawup (vals : List ℚ) : FVal :=
  scale100 (vals.foldl duStep (f64MAXq, FVal.fin 0)).2

/-- `MaxDrawdown::next`: the window update (eviction first, strict
boundary) followed by the full-window drawdown rescan. -/
def maxDrawdownNext (durationSecs : ℤ) (s : WindowState) (timestamp : ℤ)
    (value : ℚ) : WindowState × FVal :=
  let s' := drawWindowNext durationSecs s timestamp value
  (s', calcMaxDrawdown (s'.window.map Prod.snd))

/-- `MaxDrawup::next`: the window update followed by the full-window
drawup rescan. -/
def maxDrawupNext (durationSecs : ℤ) (s : WindowState) (timestamp : ℤ)
    (value : ℚ) : WindowState × FVal :=
  let s' := drawWindowNext durationSecs s timestamp value
  (s', calcMaxDrawup (s'.window.map Prod.snd))

/-! ## ExponentialMovingAverage (exponential_moving_average.rs)

The smoother works on `f64` estimates with a real-exponent power
(`powf`); its state and update are embedded over `ℝ`. -/

noncomputable section
open scoped Classical

/-- State of `ExponentialMovingAverage`: construction-time `period`,
`period_duration` (whole seconds) and base decay `k`, plus the running
`current`, `is_new`, `last_value`, `last_timestamp`, `last_adjusted_k`. -/
structure EmaState where
  period : ℕ
  periodDuration : ℤ
  k : ℝ
  current : ℝ
  isNew : Bool
  lastValue : ℝ
  lastTimestamp : Option ℤ
  lastAdjustedK : ℝ

/-- `ExponentialMovingAverage::new(period, period_duration)` (the `Ok`
case of a nonzero period and duration): `k = 2 / (period + 1)`, all
running state cleared. -/
def emaNew (period : ℕ) (periodDurationSecs : ℤ) : EmaState :=
  { period := period
    periodDuration := periodDurationSecs
    k := 2 / ((period : ℝ) + 1)
    current := 0
    isNew := true
    lastValue := 0
    lastTimestamp := none
    lastAdjustedK := 0 }

/-- `ExponentialMovingAverage::calculate_adjusted_k`: `0` when no whole
second has elapsed, `1 - (1 - k)^(elapsed / period_duration)` on forward
motion, full weight `1` when no previous timestamp exists. -/
def calculateAdjustedK (s : EmaState) (timestamp : ℤ) : ℝ :=
  match s.lastTimestamp with
  | some lastTs =>
      if timestamp - lastTs ≤ 0 then 0
      else
        1 - (1 - s.k) ^ (((timestamp - lastTs : ℤ) : ℝ) / ((s.periodDuration : ℤ) : ℝ))
  | none => 1

/-- `<ExponentialMovingAverage as Next<f64>>::next((timestamp, value))`:
returns the updated state and the returned `current`. -/
def emaNext (s : EmaState) (timestamp : ℤ) (value : ℝ) : EmaState × ℝ :=
  if s.lastTimestamp = some timestamp ∧ s.isNew = false then
    let s' :=
      if 0 < s.lastAdjustedK ∧ s.lastAdjustedK < 1 then
        let oldCurrent :=
          (s.current - s.lastAdjustedK * s.lastValue) / (1 - s.lastAdjustedK)
        { s with
            current := s.lastAdjustedK * value + (1 - s.lastAdjustedK) * oldCurrent
            lastValue := value }
      else if 1 ≤ s.lastAdjustedK then
        { s with current := value, lastValue := value }
      else
        { s with lastValue := value }
    (s', s'.current)
  else
    let adjustedK := calculateAdjustedK s timestamp
    let s' :=
      if s.isNew then
        { s with
            isNew := false
            current := value
            lastAdjustedK := 1
            lastTimestamp := some timestamp
            lastValue := value }
      else if 0 < adjustedK then
        { s with
            current := adjustedK * value + (1 - adjustedK) * s.current
            lastAdjustedK := adjustedK
            lastTimestamp := some timestamp
            lastValue := value }
      else
        { s with lastTimestamp := some timestamp, lastValue := value }
    (s', s'.current)

/-! ## RelativeStrengthIndex (relative_strength_index.rs) -/

/-- State of `RelativeStrengthIndex`: the two smoothers plus
`prev_val` and `prev_timestamp`. -/
structure RsiState where
  period : ℕ
  periodDuration : ℤ
  upEma : EmaState
  downEma : EmaState
  prevVal : Option ℝ
  prevTimestamp : Option ℤ

/-- `RelativeStrengthIndex::new(period, period_duration)` (the `Ok` case). -/
def rsiNew (period : ℕ) (periodDurationSecs : ℤ) : RsiState :=
  { period := period
    periodDuration := periodDurationSecs
    upEma := emaNew period periodDurationSecs
    downEma := emaNew period periodDurationSecs
    prevVal := none
    prevTimestamp := none }

/-- `RelativeStrengthIndex::calculate_gain_loss`: zero on the first value
or on non-positive elapsed time, otherwise the time-scaled positive part
of the price change and the time-scaled negative part. -/
def rsiGainLoss (s : RsiState) (value : ℝ) (timestamp : ℤ) : ℝ × ℝ :=
  match s.prevVal, s.prevTimestamp with
  | some prevVal, some prevTs =>
      if timestamp - prevTs ≤ 0 then (0, 0)
      else
        let priceChange := value - prevVal
        let timeFactor :=
          ((timestamp - prevTs : ℤ) : ℝ) / ((s.periodDuration : ℤ) : ℝ)
        if 0 < priceChange then (priceChange * timeFactor, 0)
        else (0, -priceChange * timeFactor)
  | _, _ => (0, 0)

/-- The final RSI computation from the two smoothed averages: `50` when
both are zero, `100` when only the loss average is zero, otherwise
`100 - 100 / (1 + avg_up / avg_down)`. -/
def rsiResult (avgUp avgDown : ℝ) : ℝ :=
  if avgDown = 0 then
    if avgUp = 0 then 50 else 100
  else
    100 - 100 / (1 + avgUp / avgDown)

/-- `<RelativeStrengthIndex as Next<f64>>::next((timestamp, value))`:
feed `(0, 0)` to both smoothers on a same-timestamp replacement, else the
computed gain/loss pair; advance `prev_timestamp` only on non-replacement
calls, `prev_val` always. -/
def rsiNext (s : RsiState) (timestamp : ℤ) (value : ℝ) : RsiState × ℝ :=
  let isReplacement := s.prevTimestamp = some timestamp
  let gl := if isReplacement then ((0 : ℝ), (0 : ℝ)) else rsiGainLoss s value timestamp
  let up := emaNext s.upEma timestamp gl.1
  let down := emaNext s.downEma timestamp gl.2
  let s' :=
    { s with
        upEma := up.1
        downEma := down.1
        prevTimestamp := if isReplacement then s.prevTimestamp else some timestamp
        prevVal := some value }
  (s', rsiResult up.2 down.2)

/-- The list of outputs of a sequence of `next` calls starting from a
given state. -/
def rsiOutputs : RsiState → List (ℤ × ℝ) → List ℝ
  | _, [] => []
  | s, (t, v) :: rest => (rsiNext s t v).2 :: rsiOutputs (rsiNext s t v).1 rest

/-- Concrete initialized smoother state used to exercise the
backward-timestamp branch. -/
def emaStateC3 : EmaState :=
  { period := 5, periodDuration := 300, k := 2 / 6, current := 10,
    isNew := false, lastValue := 7, lastTimestamp := some 100,
    lastAdjustedK := 1 / 2 }

/-- The adjusted decay constant the spec prescribes on forward motion:
`1 - (1 - k)^(elapsed / period_duration)`. -/
def specAdjustedK (k : ℝ) (elapsedSecs periodSecs : ℤ) : ℝ :=
  1 - (1 - k) ^ ((elapsedSecs : ℝ) / (periodSecs : ℝ))

/-- Concrete initialized smoother state after a first sample `2.0` at
timestamp 0 with period 3 and one-day period duration. -/
def emaStateC4 : EmaState :=
  { period := 3, periodDuration := 86400, k := 2 / ((3 : ℝ) + 1),
    current := 2, isNew := false, lastValue := 2, lastTimestamp := some 0,
    lastAdjustedK := 1 }

/-- Concrete initialized smoother state with stored decay `1/2` used to
exercise the same-instant replacement branch. -/
def emaStateC6 : EmaState :=
  { period := 3, periodDuration := 86400, k := 1 / 2, current := 10,
    isNew := false, lastValue := 7, lastTimestamp := some 100,
    lastAdjustedK := 1 / 2 }

/-- Invariant maintained by the smoother when fed non-negative values (as
the RSI does): valid construction constants, non-negative running state, a
stored decay in `[0, 1]`, and the recoverability constraint
`last_adjusted_k * last_value ≤ current` that keeps the same-instant
replacement algebra non-negative. -/
def EmaOk (e : EmaState) : Prop :=
  0 < e.k ∧ e.k ≤ 1 ∧ 0 < e.periodDuration ∧ 0 ≤ e.current ∧
  0 ≤ e.lastValue ∧ 0 ≤ e.lastAdjustedK ∧ e.lastAdjustedK ≤ 1 ∧
  e.lastAdjustedK * e.lastValue ≤ e.current

/-- Invariant of the oscillator state: both smoothers satisfy `EmaOk`,
their stored timestamps agree with `prev_timestamp`, and the period
duration is positive. -/
def RsiInv (s : RsiState) : Prop :=
  EmaOk s.upEma ∧ EmaOk s.downEma ∧
  s.upEma.lastTimestamp = s.prevTimestamp ∧
  s.downEma.lastTimestamp = s.prevTimestamp ∧
  0 < s.periodDuration

end

/-! ## Theorems -/

/-- C5: in `DailyGap` mode with gap 12,240 s and recorded slot start `T`, a
timestamp strictly inside `(T, T + 12240)` replaces without touching the
stored slot start; a timestamp at or after `T + 12240`, or at or before `T`,
returns false and records that timestamp as the new slot start. -/
theorem dailyGap_should_replace_spec (s : AdaptiveTimeDetector) (T t : ℤ)
    (hf : s.frequency = DetectedFrequency.dailyOHLC)
    (hT : s.lastTimestamp = some T) :
    ((T < t ∧ t < T + 12240) → shouldReplace s t = (true, s)) ∧
    ((t ≤ T ∨ T + 12240 ≤ t) →
      shouldReplace s t = (false, { s with lastTimestamp := some t })) := by
  have hgap : minGap = 12240 := by norm_num [minGap]
  constructor
  · rintro ⟨h1, h2⟩
    simp only [shouldReplace, hf, hT]
    rw [if_pos]
    exact ⟨by omega, by omega⟩
  · intro h
    simp only [shouldReplace, hf, hT]
    rw [if_neg]
    rintro ⟨h1, h2⟩
    rw [hgap] at h2
    omega

/-- Witness for `dailyGap_should_replace_spec` at a concrete detector. -/
theorem dailyGap_should_replace_spec_witness :
    shouldReplace
      { frequency := DetectedFrequency.dailyOHLC, lastMinuteBucket := i64MIN,
        lastTimestamp := some 0 } 100 =
      (true,
        { frequency := DetectedFrequency.dailyOHLC, lastMinuteBucket := i64MIN,
          lastTimestamp := some 0 }) :=
  (dailyGap_should_replace_spec _ 0 100 rfl rfl).1 (by norm_num)

/-- C10: the first `should_replace` call after construction, and the first
call after `reset()`, returns false in every mode, for any timestamp whose
second- and minute-bucket keys are distinct from the `i64::MIN` sentinel. -/
theorem detector_first_call_appends (d : ℕ) (t : ℤ) (s : AdaptiveTimeDetector)
    (h1 : t ≠ i64MIN) (h60 : Int.tdiv t 60 ≠ i64MIN) :
    (shouldReplace (detectorNew d) t).1 = false ∧
    (s.frequency = (detectorNew d).frequency →
      (shouldReplace (detectorReset s) t).1 = false) := by
  have hgo : ∀ u : AdaptiveTimeDetector,
      u.frequency = (detectorNew d).frequency → u.lastMinuteBucket = i64MIN →
      u.lastTimestamp = none → (shouldReplace u t).1 = false := by
    intro u hf hb hts
    simp only [detectorNew] at hf
    by_cases hd1 : d < 5 * 60
    · rw [if_pos hd1] at hf
      simp only [shouldReplace, hf, hb, hts, Int.tdiv_one]
      simpa using h1
    · rw [if_neg hd1] at hf
      by_cases hd2 : d < 86400
      · rw [if_pos hd2] at hf
        simp only [shouldReplace, hf, hb, hts]
        simpa using h60
      · rw [if_neg hd2] at hf
        simp [shouldReplace, hf, hts]
  refine ⟨hgo (detectorNew d) rfl rfl rfl, fun hf => hgo _ hf rfl rfl⟩

/-- Witness for `detector_first_call_appends` on a 1-hour detector at
timestamp 1000. -/
theorem detector_first_call_appends_witness :
    (shouldReplace (detectorNew 3600) 1000).1 = false :=
  (detector_first_call_appends 3600 1000 (detectorNew 3600) (by decide)
    (by decide)).1

/-- C1: on a 300-second `Minimum`, the replay `(0,4), (300,5), (359,6)`
ends in a replacement call (same minute bucket as `t = 300`) in which
minimum.rs pops the back WITHOUT first evicting the now-stale entry at
`t = 0` (age 359 > 300), while the canonical evict-before-replace protocol
of the spec removes it: eviction does not happen before the replace
decision in minimum.rs (nor, with the inclusive boundary, in
bollinger_bands.rs). -/
theorem minimum_replacement_skips_eviction :
    (shouldReplace
      (windowRun (minimumWindowNext 300) (windowNew 300) [(0, 4), (300, 5)]).det
      359).1 = true ∧
    (minimumWindowNext 300
      (windowRun (minimumWindowNext 300) (windowNew 300) [(0, 4), (300, 5)])
      359 6).window = [(0, 4), (359, 6)] ∧
    (minimumWindowNextSpec 300
      (windowRun (minimumWindowNext 300) (windowNew 300) [(0, 4), (300, 5)])
      359 6).window = [(359, 6)] := by
  refine ⟨by decide, by decide, by decide⟩

/-- C2: after the same replay on the 300-second `Minimum`, the retained
window still holds the entry at `t = 0` although it is 359 > 300 seconds
older than the latest retained entry at `t = 359`: the claimed window
invariant fails for minimum.rs (and bollinger_bands.rs). -/
theorem minimum_window_violates_duration_bound :
    (windowRun (minimumWindowNext 300) (windowNew 300)
      [(0, 4), (300, 5), (359, 6)]).window = [(0, 4), (359, 6)] ∧
    (∀ e ∈ (windowRun (minimumWindowNext 300) (windowNew 300)
      [(0, 4), (300, 5), (359, 6)]).window, e.1 ≤ 359) ∧
    (∃ e ∈ (windowRun (minimumWindowNext 300) (windowNew 300)
      [(0, 4), (300, 5), (359, 6)]).window, 300 < 359 - e.1) := by
  refine ⟨by decide, by decide, by decide⟩

/-- C9 counterexample: the drawdown window values `0, -1` (reachable as the
replay `(0, 0.0), (1, -1.0)` on a 2-second `MaxDrawdown`) drive the running
peak to `0` while the entry value is `-1`, and the unguarded ratio
`(peak - value) / peak = 1 / 0` makes the returned aggregate `+Infinity`;
dually for `MaxDrawup` on `0, 1`.  The aggregate is NOT always free of
Infinity. -/
theorem drawdown_zero_peak_infinite_aggregate :
    (maxDrawdownNext 2 ((maxDrawdownNext 2 (windowNew 2) 0 0).1) 1 (-1)).2
      = FVal.inf ∧
    (maxDrawupNext 2 ((maxDrawupNext 2 (windowNew 2) 0 0).1) 1 1).2
      = FVal.inf := by
  constructor
  · norm_num [maxDrawdownNext, drawWindowNext, windowNew, detectorNew,
      shouldReplace, evictStrict, calcMaxDrawdown, ddStep, ratio, FVal.isGt,
      scale100, f64MINq, f64MAXq, i64MIN, List.dropWhile]
  · norm_num [maxDrawupNext, drawWindowNext, windowNew, detectorNew,
      shouldReplace, evictStrict, calcMaxDrawup, duStep, ratio, FVal.isGt,
      scale100, f64MAXq, i64MIN, List.dropWhile]

/-- The larger-of update of the drawdown/drawup loop never produces `NaN`
from a non-`NaN` accumulator: a `NaN` candidate fails the `>` comparison. -/
theorem keepMax_ne_nan (dd m : FVal) (h : m ≠ FVal.nan) :
    (if FVal.isGt dd m then dd else m) ≠ FVal.nan := by
  by_cases hg : FVal.isGt dd m = true
  · rw [if_pos hg]
    intro hdd
    subst hdd
    simp [FVal.isGt] at hg
  · rw [if_neg hg]
    exact h

/-- The drawdown fold never turns a non-`NaN` accumulator into `NaN`. -/
theorem foldl_ddStep_ne_nan (vals : List ℚ) :
    ∀ pm : ℚ × FVal, pm.2 ≠ FVal.nan → (vals.foldl ddStep pm).2 ≠ FVal.nan := by
  induction vals with
  | nil => intro pm h; exact h
  | cons v rest ih =>
      intro pm h
      exact ih (ddStep pm v) (keepMax_ne_nan _ _ h)

/-- The drawup fold never turns a non-`NaN` accumulator into `NaN`. -/
theorem foldl_duStep_ne_nan (vals : List ℚ) :
    ∀ tm : ℚ × FVal, tm.2 ≠ FVal.nan → (vals.foldl duStep tm).2 ≠ FVal.nan := by
  induction vals with
  | nil => intro tm h; exact h
  | cons v rest ih =>
      intro tm h
      exact ih (duStep tm v) (keepMax_ne_nan _ _ h)

/-- Scaling by `100.0` preserves not being `NaN`. -/
theorem scale100_ne_nan (m : FVal) (h : m ≠ FVal.nan) :
    scale100 m ≠ FVal.nan := by
  cases m <;> simp_all [scale100]

/-- C9 amended: a window entry whose value equals a zero running
peak/trough yields the `NaN` ratio `0/0`, which fails the `>` update and
contributes nothing to the running extreme; the returned aggregate is never
`NaN` (though, per the counterexample, it can be `+Infinity` when an entry
lies strictly below a zero peak / above a zero trough). -/
theorem drawdown_drawup_nan_contained :
    (∀ m : FVal, (ddStep (0, m) 0).2 = m) ∧
    (∀ m : FVal, (duStep (0, m) 0).2 = m) ∧
    (∀ vals : List ℚ, calcMaxDrawdown vals ≠ FVal.nan) ∧
    (∀ vals : List ℚ, calcMaxDrawup vals ≠ FVal.nan) := by
  refine ⟨?_, ?_, ?_, ?_⟩
  · intro m
    norm_num [ddStep, ratio, FVal.isGt]
  · intro m
    norm_num [duStep, ratio, FVal.isGt]
  · intro vals
    exact scale100_ne_nan _ (foldl_ddStep_ne_nan vals _ (by simp))
  · intro vals
    exact scale100_ne_nan _ (foldl_duStep_ne_nan vals _ (by simp))

/-- Witness for `drawdown_drawup_nan_contained` at concrete inputs. -/
theorem drawdown_drawup_nan_contained_witness :
    (ddStep (0, FVal.fin 0) 0).2 = FVal.fin 0 ∧
    calcMaxDrawdown [0, -1] ≠ FVal.nan ∧
    calcMaxDrawup [0, 1] ≠ FVal.nan :=
  ⟨drawdown_drawup_nan_contained.1 (FVal.fin 0),
   drawdown_drawup_nan_contained.2.2.1 [0, -1],
   drawdown_drawup_nan_contained.2.2.2 [0, 1]⟩

/-- C3 amended: a `next` call on an initialized smoother with a timestamp
strictly earlier than `last_timestamp` returns the estimate unchanged and
leaves `current` and `last_adjusted_k` alone, but it DOES move
`last_timestamp` back to the given timestamp and set `last_value` to the
given value. -/
theorem ema_backward_call_keeps_estimate (s : EmaState) (lt t : ℤ) (v : ℝ)
    (hnew : s.isNew = false) (hlast : s.lastTimestamp = some lt)
    (hlt : t < lt) :
    emaNext s t v = ({ s with lastTimestamp := some t, lastValue := v },
      s.current) := by
  have hne : ¬(s.lastTimestamp = some t ∧ s.isNew = false) := by
    rintro ⟨h1, -⟩
    rw [hlast, Option.some_inj] at h1
    omega
  have hk0 : calculateAdjustedK s t = 0 := by
    rw [calculateAdjustedK, hlast]
    simp only
    rw [if_pos (by omega : t - lt ≤ 0)]
  rw [emaNext, if_neg hne, hk0]
  simp only [hnew, Bool.false_eq_true, if_false, lt_self_iff_false]

/-- C3 counterexample: at the concrete state `emaStateC3`
(`last_timestamp = 100`, `last_value = 7`) the backward call at timestamp
50 returns the estimate unchanged but rewrites `last_timestamp` to 50 and
`last_value` to 9 — the call is not a no-op on the stored state. -/
theorem ema_backward_call_not_noop :
    (emaNext emaStateC3 50 9).2 = emaStateC3.current ∧
    (emaNext emaStateC3 50 9).1.lastTimestamp = some 50 ∧
    emaStateC3.lastTimestamp = some 100 ∧
    (emaNext emaStateC3 50 9).1.lastValue = 9 ∧
    emaStateC3.lastValue = 7 := by
  norm_num [emaNext, calculateAdjustedK, emaStateC3]

/-- Witness for `ema_backward_call_keeps_estimate` at the concrete state. -/
theorem ema_backward_call_keeps_estimate_witness :
    emaNext emaStateC3 50 9 =
      ({ emaStateC3 with lastTimestamp := some 50, lastValue := 9 },
        emaStateC3.current) :=
  ema_backward_call_keeps_estimate emaStateC3 100 50 9 rfl rfl (by omega)

/-- C4: on a strictly later timestamp, an initialized smoother with
`k = 2/(period+1)` blends `adjusted_k * value + (1 - adjusted_k) * current`
with `adjusted_k = 1 - (1-k)^(elapsed/P)` and stores the new timestamp,
value and decay. -/
theorem ema_forward_time_weighted_update (s : EmaState) (lt t : ℤ) (v : ℝ)
    (hnew : s.isNew = false) (hlast : s.lastTimestamp = some lt)
    (hlt : lt < t) (hN : 1 ≤ s.period)
    (hk : s.k = 2 / ((s.period : ℝ) + 1)) (hP : 0 < s.periodDuration) :
    emaNext s t v =
      ({ s with
          current := specAdjustedK s.k (t - lt) s.periodDuration * v +
            (1 - specAdjustedK s.k (t - lt) s.periodDuration) * s.current
          lastAdjustedK := specAdjustedK s.k (t - lt) s.periodDuration
          lastTimestamp := some t
          lastValue := v },
       specAdjustedK s.k (t - lt) s.periodDuration * v +
         (1 - specAdjustedK s.k (t - lt) s.periodDuration) * s.current) := by
  have hNpos : (0 : ℝ) < (s.period : ℝ) + 1 := by positivity
  have hk0 : 0 < s.k := by
    rw [hk]
    positivity
  have hk1 : s.k ≤ 1 := by
    rw [hk, div_le_one hNpos]
    have : (1 : ℝ) ≤ (s.period : ℝ) := by exact_mod_cast hN
    linarith
  have hpe : (0 : ℝ) < ((t - lt : ℤ) : ℝ) / ((s.periodDuration : ℤ) : ℝ) := by
    apply div_pos
    · exact_mod_cast (by omega : (0 : ℤ) < t - lt)
    · exact_mod_cast hP
  have hlow : (1 - s.k) ^ (((t - lt : ℤ) : ℝ) / ((s.periodDuration : ℤ) : ℝ))
      < 1 :=
    Real.rpow_lt_one (by linarith) (by linarith) hpe
  have hne : ¬(s.lastTimestamp = some t ∧ s.isNew = false) := by
    rintro ⟨h1, -⟩
    rw [hlast, Option.some_inj] at h1
    omega
  have hkval : calculateAdjustedK s t = specAdjustedK s.k (t - lt)
      s.periodDuration := by
    rw [calculateAdjustedK, hlast]
    simp only
    rw [if_neg (by omega : ¬ t - lt ≤ 0)]
    rfl
  have hkpos : 0 < calculateAdjustedK s t := by
    rw [hkval, specAdjustedK]
    linarith
  rw [emaNext, if_neg hne]
  simp only [hnew, Bool.false_eq_true, if_false]
  rw [if_pos hkpos, hkval]

/-- Witness for `ema_forward_time_weighted_update` one day after the first
sample. -/
theorem ema_forward_time_weighted_update_witness :
    emaNext emaStateC4 86400 5 =
      ({ emaStateC4 with
          current := specAdjustedK emaStateC4.k 86400 86400 * 5 +
            (1 - specAdjustedK emaStateC4.k 86400 86400) * emaStateC4.current
          lastAdjustedK := specAdjustedK emaStateC4.k 86400 86400
          lastTimestamp := some 86400
          lastValue := 5 },
       specAdjustedK emaStateC4.k 86400 86400 * 5 +
         (1 - specAdjustedK emaStateC4.k 86400 86400) * emaStateC4.current) :=
  ema_forward_time_weighted_update emaStateC4 0 86400 5 rfl rfl (by omega)
    (by norm_num [emaStateC4]) rfl (by norm_num [emaStateC4])

/-- C6: a `next` call at exactly `last_timestamp` on an initialized
smoother undoes the previous blend and reapplies it at the stored decay:
with `0 < last_decay < 1` the old estimate is recovered and re-blended,
with `last_decay = 1` the estimate becomes the new value, with
`last_decay = 0` it is unchanged; `last_value` becomes the new value while
`last_timestamp` and `last_decay` stay put. -/
theorem ema_same_timestamp_replacement (s : EmaState) (t : ℤ) (v : ℝ)
    (hnew : s.isNew = false) (hlast : s.lastTimestamp = some t) :
    (0 < s.lastAdjustedK ∧ s.lastAdjustedK < 1 →
      (emaNext s t v).2 = s.lastAdjustedK * v + (1 - s.lastAdjustedK) *
        ((s.current - s.lastAdjustedK * s.lastValue) /
          (1 - s.lastAdjustedK))) ∧
    (s.lastAdjustedK = 1 → (emaNext s t v).2 = v) ∧
    (s.lastAdjustedK = 0 → (emaNext s t v).2 = s.current) ∧
    (emaNext s t v).1.lastValue = v ∧
    (emaNext s t v).1.lastTimestamp = s.lastTimestamp ∧
    (emaNext s t v).1.lastAdjustedK = s.lastAdjustedK := by
  rw [emaNext, if_pos ⟨hlast, hnew⟩]
  by_cases h1 : 0 < s.lastAdjustedK ∧ s.lastAdjustedK < 1
  · rw [if_pos h1]
    refine ⟨fun _ => rfl, fun he => ?_, fun he => ?_, rfl, rfl, rfl⟩
    · exact absurd h1.2 (by rw [he]; exact lt_irrefl 1)
    · exact absurd h1.1 (by rw [he]; exact lt_irrefl 0)
  · rw [if_neg h1]
    by_cases h2 : 1 ≤ s.lastAdjustedK
    · rw [if_pos h2]
      refine ⟨fun hc => absurd hc h1, fun _ => rfl, fun he => ?_, rfl, rfl,
        rfl⟩
      exact absurd h2 (by rw [he]; norm_num)
    · rw [if_neg h2]
      refine ⟨fun hc => absurd hc h1, fun he => ?_, fun _ => rfl, rfl, rfl,
        rfl⟩
      exact absurd he.ge h2

/-- Witness for `ema_same_timestamp_replacement` at the concrete state. -/
theorem ema_same_timestamp_replacement_witness :
    (emaNext emaStateC6 100 4).2 = (1 / 2 : ℝ) * 4 + (1 - 1 / 2) *
      ((10 - (1 / 2 : ℝ) * 7) / (1 - 1 / 2)) ∧
    (emaNext emaStateC6 100 4).1.lastTimestamp = some 100 := by
  have h := ema_same_timestamp_replacement emaStateC6 100 4 rfl rfl
  refine ⟨?_, h.2.2.2.2.1⟩
  have h1 := h.1 (by norm_num [emaStateC6])
  rw [h1]
  norm_num [emaStateC6]

/-- C7: the value returned by an RSI `next` call is `50` when both
smoothed averages are zero, `100` when the loss average is zero and the
gain average positive, and `100 - 100/(1 + avg_up/avg_down)` when the loss
average is nonzero. -/
theorem rsi_next_result_cases (s : RsiState) (t : ℤ) (v : ℝ) (u d : ℝ)
    (hu : u = (emaNext s.upEma t (if s.prevTimestamp = some t then 0
      else (rsiGainLoss s v t).1)).2)
    (hd : d = (emaNext s.downEma t (if s.prevTimestamp = some t then 0
      else (rsiGainLoss s v t).2)).2) :
    (d = 0 ∧ u = 0 → (rsiNext s t v).2 = 50) ∧
    (d = 0 ∧ 0 < u → (rsiNext s t v).2 = 100) ∧
    (d ≠ 0 → (rsiNext s t v).2 = 100 - 100 / (1 + u / d)) := by
  have e1 : (if s.prevTimestamp = some t then ((0 : ℝ), (0 : ℝ))
      else rsiGainLoss s v t).1 =
      (if s.prevTimestamp = some t then 0 else (rsiGainLoss s v t).1) := by
    by_cases hrep : s.prevTimestamp = some t
    · rw [if_pos hrep, if_pos hrep]
    · rw [if_neg hrep, if_neg hrep]
  have e2 : (if s.prevTimestamp = some t then ((0 : ℝ), (0 : ℝ))
      else rsiGainLoss s v t).2 =
      (if s.prevTimestamp = some t then 0 else (rsiGainLoss s v t).2) := by
    by_cases hrep : s.prevTimestamp = some t
    · rw [if_pos hrep, if_pos hrep]
    · rw [if_neg hrep, if_neg hrep]
  have hout : (rsiNext s t v).2 = rsiResult u d := by
    subst hu hd
    show rsiResult
      (emaNext s.upEma t (if s.prevTimestamp = some t then ((0 : ℝ), (0 : ℝ))
        else rsiGainLoss s v t).1).2
      (emaNext s.downEma t (if s.prevTimestamp = some t then ((0 : ℝ), (0 : ℝ))
        else rsiGainLoss s v t).2).2 = _
    rw [e1, e2]
  rw [hout, rsiResult]
  refine ⟨fun h => ?_, fun h => ?_, fun h => ?_⟩
  · rw [if_pos h.1, if_pos h.2]
  · rw [if_pos h.1, if_neg (ne_of_gt h.2)]
  · rw [if_neg h]

/-- Witness for `rsi_next_result_cases`: the first call on a fresh RSI
feeds zero gain and loss, both averages are zero, and the result is 50. -/
theorem rsi_next_result_cases_witness :
    (rsiNext (rsiNew 5 3600) 0 7).2 = 50 := by
  have h := rsi_next_result_cases (rsiNew 5 3600) 0 7 0 0
    (by simp [rsiNew, emaNew, emaNext, rsiGainLoss])
    (by simp [rsiNew, emaNew, emaNext, rsiGainLoss])
  exact h.1 ⟨rfl, rfl⟩

/-- The adjusted decay constant always lies in `[0, 1]` for a validly
constructed smoother. -/
theorem calculateAdjustedK_bounds (e : EmaState) (t : ℤ) (hk0 : 0 < e.k)
    (hk1 : e.k ≤ 1) (hP : 0 < e.periodDuration) :
    0 ≤ calculateAdjustedK e t ∧ calculateAdjustedK e t ≤ 1 := by
  cases hlt : e.lastTimestamp with
  | none =>
      rw [calculateAdjustedK, hlt]
      norm_num
  | some lt =>
      rw [calculateAdjustedK, hlt]
      dsimp only
      by_cases hle : t - lt ≤ 0
      · rw [if_pos hle]
        norm_num
      · rw [if_neg hle]
        have hpe : 0 ≤ ((t - lt : ℤ) : ℝ) / ((e.periodDuration : ℤ) : ℝ) :=
          div_nonneg (by exact_mod_cast (by omega : (0 : ℤ) ≤ t - lt))
            (by exact_mod_cast hP.le)
        have h1 := Real.rpow_le_one (by linarith : (0 : ℝ) ≤ 1 - e.k)
          (by linarith) hpe
        have h2 := Real.rpow_nonneg (by linarith : (0 : ℝ) ≤ 1 - e.k)
          (((t - lt : ℤ) : ℝ) / ((e.periodDuration : ℤ) : ℝ))
        constructor <;> linarith

/-- One smoother step preserves `EmaOk` and returns a non-negative value,
provided the fed value is non-negative and is zero whenever the call moves
backwards in time (as in RSI usage); the stored timestamp afterwards is
always the call's timestamp. -/
theorem emaNext_ok (e : EmaState) (t : ℤ) (v : ℝ) (he : EmaOk e) (hv : 0 ≤ v)
    (hz : ∀ lt, e.lastTimestamp = some lt → t < lt → v = 0) :
    EmaOk (emaNext e t v).1 ∧ 0 ≤ (emaNext e t v).2 ∧
    (emaNext e t v).1.lastTimestamp = some t := by
  obtain ⟨hk0, hk1, hP, hcur, hlv, hd0, hd1, hdc⟩ := he
  rw [emaNext]
  by_cases hrep : e.lastTimestamp = some t ∧ e.isNew = false
  · rw [if_pos hrep]
    dsimp only
    by_cases h1 : 0 < e.lastAdjustedK ∧ e.lastAdjustedK < 1
    · rw [if_pos h1]
      have hold : 0 ≤ (e.current - e.lastAdjustedK * e.lastValue) /
          (1 - e.lastAdjustedK) := div_nonneg (by linarith) (by linarith)
      have hnn : 0 ≤ (1 - e.lastAdjustedK) *
          ((e.current - e.lastAdjustedK * e.lastValue) /
            (1 - e.lastAdjustedK)) := mul_nonneg (by linarith) hold
      have hdv : 0 ≤ e.lastAdjustedK * v := mul_nonneg h1.1.le hv
      exact ⟨⟨hk0, hk1, hP, by (try dsimp only); linarith, hv, hd0, hd1, by (try dsimp only); linarith⟩,
        by (try dsimp only); linarith, hrep.1⟩
    · rw [if_neg h1]
      by_cases h2 : 1 ≤ e.lastAdjustedK
      · rw [if_pos h2]
        have hdvv : e.lastAdjustedK * v ≤ v := by
          rw [le_antisymm hd1 h2, one_mul]
        exact ⟨⟨hk0, hk1, hP, hv, hv, hd0, hd1, hdvv⟩, hv, hrep.1⟩
      · rw [if_neg h2]
        have hde : e.lastAdjustedK = 0 := by
          rcases lt_or_eq_of_le hd0 with h | h
          · exact absurd ⟨h, lt_of_not_le h2⟩ h1
          · exact h.symm
        exact ⟨⟨hk0, hk1, hP, hcur, hv, hd0, hd1,
          by (try dsimp only); rw [hde, zero_mul]; exact hcur⟩, hcur, hrep.1⟩
  · rw [if_neg hrep]
    dsimp only
    by_cases hnew : e.isNew = true
    · rw [if_pos hnew]
      exact ⟨⟨hk0, hk1, hP, hv, hv, zero_le_one, le_rfl, (one_mul v).le⟩,
        hv, rfl⟩
    · rw [if_neg hnew]
      have hak := calculateAdjustedK_bounds e t hk0 hk1 hP
      by_cases hakpos : 0 < calculateAdjustedK e t
      · rw [if_pos hakpos]
        have hnn2 : 0 ≤ (1 - calculateAdjustedK e t) * e.current :=
          mul_nonneg (by linarith [hak.2]) hcur
        have hdv : 0 ≤ calculateAdjustedK e t * v := mul_nonneg hakpos.le hv
        exact ⟨⟨hk0, hk1, hP, by (try dsimp only); linarith, hv, hak.1, hak.2, by (try dsimp only); linarith⟩,
          by (try dsimp only); linarith, rfl⟩
      · rw [if_neg hakpos]
        have hv0 : v = 0 := by
          cases hlt : e.lastTimestamp with
          | none =>
              exfalso
              apply hakpos
              rw [calculateAdjustedK, hlt]
              norm_num
          | some lt =>
              by_cases hle : t - lt ≤ 0
              · have hnew' : e.isNew = false := by
                  rcases Bool.eq_false_or_eq_true e.isNew with h | h
                  · exact absurd h hnew
                  · exact h
                have hltne : t < lt := by
                  rcases eq_or_lt_of_le (by omega : t ≤ lt) with h | h
                  · exact absurd ⟨by rw [hlt, h], hnew'⟩ hrep
                  · exact h
                exact hz lt hlt hltne
              · exfalso
                apply hakpos
                rw [calculateAdjustedK, hlt]
                dsimp only
                rw [if_neg hle]
                have hpe : 0 < ((t - lt : ℤ) : ℝ) /
                    ((e.periodDuration : ℤ) : ℝ) :=
                  div_pos (by exact_mod_cast (by omega : (0 : ℤ) < t - lt))
                    (by exact_mod_cast hP)
                have hlow := @Real.rpow_lt_one (1 - e.k)
                  (((t - lt : ℤ) : ℝ) / ((e.periodDuration : ℤ) : ℝ))
                  (by linarith) (by linarith) hpe
                linarith
        subst hv0
        exact ⟨⟨hk0, hk1, hP, hcur, le_rfl, hd0, hd1,
          by (try dsimp only); rw [mul_zero]; exact hcur⟩, hcur, rfl⟩

/-- The gain/loss pair the RSI computes is componentwise non-negative. -/
theorem rsiGainLoss_nonneg (s : RsiState) (v : ℝ) (t : ℤ)
    (hP : 0 < s.periodDuration) :
    0 ≤ (rsiGainLoss s v t).1 ∧ 0 ≤ (rsiGainLoss s v t).2 := by
  rw [rsiGainLoss]
  cases hpv : s.prevVal with
  | none =>
      cases s.prevTimestamp <;> norm_num
  | some pv =>
      cases hpt : s.prevTimestamp with
      | none => norm_num
      | some pt =>
          dsimp only
          by_cases hle : t - pt ≤ 0
          · rw [if_pos hle]
            norm_num
          · rw [if_neg hle]
            have htf : 0 ≤ ((t - pt : ℤ) : ℝ) / ((s.periodDuration : ℤ) : ℝ) :=
              div_nonneg (by exact_mod_cast (by omega : (0 : ℤ) ≤ t - pt))
                (by exact_mod_cast hP.le)
            by_cases hpc : 0 < v - pv
            · rw [if_pos hpc]
              exact ⟨mul_nonneg hpc.le htf, le_rfl⟩
            · rw [if_neg hpc]
              exact ⟨le_rfl,
                mul_nonneg (by linarith [not_lt.mp hpc]) htf⟩

/-- A call that moves backwards relative to `prev_timestamp` produces the
zero gain/loss pair. -/
theorem rsiGainLoss_backward (s : RsiState) (v : ℝ) (t pt : ℤ)
    (hpt : s.prevTimestamp = some pt) (hle : t ≤ pt) :
    rsiGainLoss s v t = (0, 0) := by
  rw [rsiGainLoss, hpt]
  cases hpv : s.prevVal with
  | none => rfl
  | some pv =>
      dsimp only
      rw [if_pos (by omega : t - pt ≤ 0)]

/-- The final RSI computation maps non-negative averages into `[0, 100]`. -/
theorem rsiResult_bounds (u d : ℝ) (hu : 0 ≤ u) (hd : 0 ≤ d) :
    0 ≤ rsiResult u d ∧ rsiResult u d ≤ 100 := by
  rw [rsiResult]
  by_cases h : d = 0
  · rw [if_pos h]
    by_cases h2 : u = 0
    · rw [if_pos h2]
      norm_num
    · rw [if_neg h2]
      norm_num
  · rw [if_neg h]
    have hd' : 0 < d := lt_of_le_of_ne hd (Ne.symm h)
    have hrs : 0 ≤ u / d := div_nonneg hu hd
    have h1 : (0 : ℝ) < 1 + u / d := by linarith
    have h2 : 100 / (1 + u / d) ≤ 100 :=
      div_le_self (by norm_num) (by linarith)
    have h3 : 0 < 100 / (1 + u / d) := by positivity
    constructor <;> linarith

/-- One oscillator step preserves `RsiInv` and keeps the output in
`[0, 100]`. -/
theorem rsiNext_inv (s : RsiState) (t : ℤ) (v : ℝ) (hs : RsiInv s) :
    RsiInv (rsiNext s t v).1 ∧ 0 ≤ (rsiNext s t v).2 ∧
    (rsiNext s t v).2 ≤ 100 := by
  obtain ⟨hup, hdown, hlup, hldown, hP⟩ := hs
  have hglnn : 0 ≤ (if s.prevTimestamp = some t then ((0 : ℝ), (0 : ℝ))
      else rsiGainLoss s v t).1 ∧
      0 ≤ (if s.prevTimestamp = some t then ((0 : ℝ), (0 : ℝ))
      else rsiGainLoss s v t).2 := by
    by_cases hrep : s.prevTimestamp = some t
    · rw [if_pos hrep]
      norm_num
    · rw [if_neg hrep]
      exact rsiGainLoss_nonneg s v t hP
  have hglz : ∀ lt : ℤ, s.prevTimestamp = some lt → t < lt →
      (if s.prevTimestamp = some t then ((0 : ℝ), (0 : ℝ))
        else rsiGainLoss s v t) = (0, 0) := by
    intro lt hl hlt
    by_cases hrep : s.prevTimestamp = some t
    · rw [if_pos hrep]
    · rw [if_neg hrep]
      exact rsiGainLoss_backward s v t lt hl (by omega)
  have hzu : ∀ lt : ℤ, s.upEma.lastTimestamp = some lt → t < lt →
      (if s.prevTimestamp = some t then ((0 : ℝ), (0 : ℝ))
        else rsiGainLoss s v t).1 = 0 := by
    intro lt hl hlt
    rw [hglz lt (hlup.symm.trans hl) hlt]
  have hzd : ∀ lt : ℤ, s.downEma.lastTimestamp = some lt → t < lt →
      (if s.prevTimestamp = some t then ((0 : ℝ), (0 : ℝ))
        else rsiGainLoss s v t).2 = 0 := by
    intro lt hl hlt
    rw [hglz lt (hldown.symm.trans hl) hlt]
  have hu := emaNext_ok s.upEma t _ hup hglnn.1 hzu
  have hd := emaNext_ok s.downEma t _ hdown hglnn.2 hzd
  have hres := rsiResult_bounds _ _ hu.2.1 hd.2.1
  refine ⟨⟨hu.1, hd.1, ?_, ?_, hP⟩, hres.1, hres.2⟩
  · show (emaNext s.upEma t (if s.prevTimestamp = some t
        then ((0 : ℝ), (0 : ℝ)) else rsiGainLoss s v t).1).1.lastTimestamp =
      (if s.prevTimestamp = some t then s.prevTimestamp else some t)
    rw [hu.2.2]
    by_cases hrep : s.prevTimestamp = some t
    · rw [if_pos hrep, hrep]
    · rw [if_neg hrep]
  · show (emaNext s.downEma t (if s.prevTimestamp = some t
        then ((0 : ℝ), (0 : ℝ)) else rsiGainLoss s v t).2).1.lastTimestamp =
      (if s.prevTimestamp = some t then s.prevTimestamp else some t)
    rw [hd.2.2]
    by_cases hrep : s.prevTimestamp = some t
    · rw [if_pos hrep, hrep]
    · rw [if_neg hrep]

/-- Replaying any sample sequence from an `RsiInv` state keeps every
output in `[0, 100]`. -/
theorem rsiOutputs_bounded_of_inv (inputs : List (ℤ × ℝ)) :
    ∀ s : RsiState, RsiInv s → ∀ r ∈ rsiOutputs s inputs,
      0 ≤ r ∧ r ≤ 100 := by
  induction inputs with
  | nil =>
      intro s _ r hr
      simp [rsiOutputs] at hr
  | cons p rest ih =>
      intro s hs r hr
      obtain ⟨t, v⟩ := p
      simp only [rsiOutputs] at hr
      rcases List.mem_cons.mp hr with h | h
      · subst h
        exact ⟨(rsiNext_inv s t v hs).2.1, (rsiNext_inv s t v hs).2.2⟩
      · exact ih (rsiNext s t v).1 (rsiNext_inv s t v hs).1 r h

/-- C8: every output of a validly constructed RSI (nonzero period count,
positive period duration) on any sample sequence lies in `[0, 100]`. -/
theorem rsi_outputs_bounded (N : ℕ) (P : ℤ) (inputs : List (ℤ × ℝ))
    (hN : 1 ≤ N) (hP : 0 < P) :
    ∀ r ∈ rsiOutputs (rsiNew N P) inputs, 0 ≤ r ∧ r ≤ 100 := by
  have hema : EmaOk (emaNew N P) := by
    refine ⟨?_, ?_, hP, le_rfl, le_rfl, le_rfl, zero_le_one, ?_⟩
    · show (0 : ℝ) < 2 / ((N : ℝ) + 1)
      positivity
    · show (2 : ℝ) / ((N : ℝ) + 1) ≤ 1
      rw [div_le_one (by positivity)]
      have h : (1 : ℝ) ≤ (N : ℝ) := by exact_mod_cast hN
      linarith
    · show (0 : ℝ) * 0 ≤ 0
      norm_num
  exact rsiOutputs_bounded_of_inv inputs (rsiNew N P) ⟨hema, hema, rfl, rfl, hP⟩

/-- Witness for `rsi_outputs_bounded` on the one-sample sequence
`(0, 10.0)` with period 3 and one-day duration. -/
theorem rsi_outputs_bounded_witness :
    0 ≤ (rsiNext (rsiNew 3 86400) 0 10).2 ∧
      (rsiNext (rsiNew 3 86400) 0 10).2 ≤ 100 :=
  rsi_outputs_bounded 3 86400 [(0, 10)] (by norm_num) (by norm_num)
    ((rsiNext (rsiNew 3 86400) 0 10).2) (by simp [rsiOutputs])

end TaRs
